import Mathlib

/-!
Verification of the mDNS discovery subsystem of the elgato-keylight
repository: the avahi-browse line decoder (`src/avahi_browse.rs`), the
device resolver and registry state machine (`src/mdns/avahi.rs`).

The embedding works on `List Char` throughout so that every definition is
executable by the kernel.  Rust standard-library functions used by the
source (`IpAddr` display and parsing, `u16::from_str`, `url::Url::parse`)
are modelled explicitly; each such model carries a doc comment naming the
function it models.  Rust panics are modelled explicitly: a function that
can panic returns an `Option` (`none` = panic) or a `RustResult` with a
`panicked` constructor.
-/

/-- Numeric value of a list of ASCII decimal digit characters, most
significant first. -/
def digitsToNat (ds : List Char) : Nat :=
  ds.foldl (fun acc c => 10 * acc + (c.toNat - 48)) 0

/-- Lower-case digit character for a value below 16 (as produced by Rust's
decimal and lower-hex formatting). -/
def hexDigitChar (n : Nat) : Char :=
  if n < 10 then Char.ofNat (48 + n) else Char.ofNat (87 + n)

/-- Digits of `n` in the given base, accumulator style, with explicit fuel
so that the definition is structurally recursive and kernel-reducible.
Models Rust's integer `Display` (base 10) and `LowerHex` (base 16). -/
def toDigitsAux (base : Nat) : Nat → Nat → List Char → List Char
  | 0, _, acc => acc
  | fuel + 1, n, acc =>
    if n < base then hexDigitChar n :: acc
    else toDigitsAux base fuel (n / base) (hexDigitChar (n % base) :: acc)

/-- Decimal digit characters of `n`; models Rust `Display` of unsigned
integers. -/
def toDecChars (n : Nat) : List Char := toDigitsAux 10 (n + 1) n []

/-- Lower-case hexadecimal digit characters of `n`; models Rust `LowerHex`
formatting of a `u16` segment. -/
def toHexChars (n : Nat) : List Char := toDigitsAux 16 (n + 1) n []

/-- An IP address, as carried by `std::net::IpAddr`: four octets for v4,
eight 16-bit segments for v6. -/
inductive IpAddr where
  | v4 (a b c d : Fin 256)
  | v6 (s0 s1 s2 s3 s4 s5 s6 s7 : Fin 65536)
deriving DecidableEq, Repr

/-- Characters of the dotted-decimal rendering of an IPv4 address; models
Rust `Display for Ipv4Addr`. -/
def ipv4Chars (a b c d : Nat) : List Char :=
  toDecChars a ++ '.' :: toDecChars b ++ '.' :: toDecChars c ++ '.' :: toDecChars d

/-- Hex segments of a chunk joined with `:`; models the `fmt_subslice`
helper of Rust `Display for Ipv6Addr`. -/
def fmtSubslice : List Nat → List Char
  | [] => []
  | [n] => toHexChars n
  | n :: rest => toHexChars n ++ ':' :: fmtSubslice rest

/-- A run of zero segments (start index and length), as computed by Rust
`Display for Ipv6Addr`. -/
structure Span where
  start : Nat
  len : Nat
deriving DecidableEq, Repr

/-- Longest run of consecutive zero segments, first-longest wins; models
the zero-span loop of Rust `Display for Ipv6Addr`. -/
def zeroSpanAux : List Nat → Nat → Span → Span → Span
  | [], _, longest, _ => longest
  | seg :: rest, i, longest, current =>
    if seg = 0 then
      let current' : Span := ⟨if current.len = 0 then i else current.start, current.len + 1⟩
      let longest' := if current'.len > longest.len then current' else longest
      zeroSpanAux rest (i + 1) longest' current'
    else
      zeroSpanAux rest (i + 1) longest ⟨0, 0⟩

/-- Characters of the textual rendering of an IPv6 address; models Rust
`Display for Ipv6Addr`: the IPv4-mapped special case first, otherwise the
longest run of two or more zero segments is compressed to `::`. -/
def ipv6DisplayChars (s0 s1 s2 s3 s4 s5 s6 s7 : Nat) : List Char :=
  if s0 = 0 ∧ s1 = 0 ∧ s2 = 0 ∧ s3 = 0 ∧ s4 = 0 ∧ s5 = 65535 then
    ':' :: ':' :: 'f' :: 'f' :: 'f' :: 'f' :: ':' ::
      ipv4Chars (s6 / 256) (s6 % 256) (s7 / 256) (s7 % 256)
  else
    let segs := [s0, s1, s2, s3, s4, s5, s6, s7]
    let z := zeroSpanAux segs 0 ⟨0, 0⟩ ⟨0, 0⟩
    if z.len > 1 then
      fmtSubslice (segs.take z.start) ++ ':' :: ':' :: fmtSubslice (segs.drop (z.start + z.len))
    else
      fmtSubslice segs

/-- Characters of the textual rendering of an IP address; models Rust
`Display for IpAddr`. -/
def IpAddr.displayChars : IpAddr → List Char
  | .v4 a b c d => ipv4Chars a.val b.val c.val d.val
  | .v6 s0 s1 s2 s3 s4 s5 s6 s7 =>
    ipv6DisplayChars s0.val s1.val s2.val s3.val s4.val s5.val s6.val s7.val

/-- Splitting a character list on a separator character; models Rust
`str::split` with a `char` pattern (an empty input yields one empty
field, a trailing separator yields a trailing empty field). -/
def splitOnChar (sep : Char) : List Char → List (List Char)
  | [] => [[]]
  | c :: rest =>
    match splitOnChar sep rest with
    | [] => [[]]
    | field :: more =>
      if c = sep then [] :: field :: more else (c :: field) :: more

/-- Value of an ASCII hexadecimal digit character, upper or lower case;
models the digit handling of Rust's IPv6 address parser. -/
def hexVal (c : Char) : Option Nat :=
  if 48 ≤ c.toNat ∧ c.toNat ≤ 57 then some (c.toNat - 48)
  else if 97 ≤ c.toNat ∧ c.toNat ≤ 102 then some (c.toNat - 87)
  else if 65 ≤ c.toNat ∧ c.toNat ≤ 70 then some (c.toNat - 55)
  else none

/-- Numeric value of a natural number below a bound, as a `Fin`. -/
def toFin? (bound : Nat) (n : Nat) : Option (Fin bound) :=
  if h : n < bound then some ⟨n, h⟩ else none

/-- Decimal octet of an IPv4 address: one to three decimal digits, no
leading zero, value at most 255; models the octet rule of Rust
`Ipv4Addr::from_str`. -/
def parseDecOctet (cs : List Char) : Option (Fin 256) :=
  match cs with
  | [] => none
  | c :: rest =>
    if cs.length ≤ 3 ∧ cs.all (·.isDigit) ∧ (rest = [] ∨ c ≠ '0') then
      toFin? 256 (digitsToNat cs)
    else none

/-- Modelled from Rust std `Ipv4Addr::from_str`: four dot-separated
decimal octets, no leading zeros. -/
def parseIpv4Chars (cs : List Char) : Option IpAddr :=
  match splitOnChar '.' cs with
  | [p0, p1, p2, p3] =>
    match parseDecOctet p0, parseDecOctet p1, parseDecOctet p2, parseDecOctet p3 with
    | some a, some b, some c, some d => some (IpAddr.v4 a b c d)
    | _, _, _, _ => none
  | _ => none

/-- Hexadecimal group of an IPv6 address: one to four hex digits; part of
the model of Rust std `Ipv6Addr::from_str`. -/
def parseHexGroup (cs : List Char) : Option (Fin 65536) :=
  match cs with
  | [] => none
  | _ =>
    if cs.length ≤ 4 ∧ cs.all (fun c => (hexVal c).isSome) then
      toFin? 65536 (cs.foldl (fun acc c => 16 * acc + ((hexVal c).getD 0)) 0)
    else none

/-- First occurrence of a double colon, splitting the list around it;
part of the model of Rust std `Ipv6Addr::from_str`. -/
def splitOnDoubleColon : List Char → Option (List Char × List Char)
  | [] => none
  | ':' :: ':' :: rest => some ([], rest)
  | c :: rest => (splitOnDoubleColon rest).map (fun p => (c :: p.1, p.2))

/-- Group-by-group parsing of one side of an IPv6 address: hex groups,
where the last group may be an embedded dotted-decimal IPv4 address
standing for two segments; part of the model of Rust std
`Ipv6Addr::from_str`. -/
def parseGroupList (allowIpv4Tail : Bool) : List (List Char) → Option (List (Fin 65536))
  | [] => some []
  | [g] =>
    match parseHexGroup g with
    | some v => some [v]
    | none =>
      if allowIpv4Tail ∧ g.contains '.' then
        match parseIpv4Chars g with
        | some (IpAddr.v4 a b c d) =>
          some [⟨256 * a.val + b.val, by omega⟩, ⟨256 * c.val + d.val, by omega⟩]
        | _ => none
      else none
  | g :: g' :: more =>
    match parseHexGroup g, parseGroupList allowIpv4Tail (g' :: more) with
    | some v, some vs => some (v :: vs)
    | _, _ => none

/-- Group list of one side of an IPv6 address (an empty side contributes
no groups); part of the model of Rust std `Ipv6Addr::from_str`. -/
def parseGroupSeq (allowIpv4Tail : Bool) (cs : List Char) : Option (List (Fin 65536)) :=
  if cs = [] then some []
  else parseGroupList allowIpv4Tail (splitOnChar ':' cs)

/-- Modelled from Rust std `Ipv6Addr::from_str`: up to eight 16-bit hex
groups, at most one `::` standing for one or more zero groups, an
embedded IPv4 address allowed in the final position. -/
def parseIpv6Chars (cs : List Char) : Option IpAddr :=
  let build : List (Fin 65536) → Option IpAddr := fun segs =>
    match segs with
    | [a, b, c, d, e, f, g, h] => some (IpAddr.v6 a b c d e f g h)
    | _ => none
  match splitOnDoubleColon cs with
  | none =>
    match parseGroupSeq true cs with
    | some segs => if segs.length = 8 then build segs else none
    | none => none
  | some (left, right) =>
    if (splitOnDoubleColon right).isSome then none
    else
      match parseGroupSeq false left, parseGroupSeq true right with
      | some ls, some rs =>
        if ls.length + rs.length ≤ 7 then
          build (ls ++ List.replicate (8 - ls.length - rs.length) (0 : Fin 65536) ++ rs)
        else none
      | _, _ => none

/-- Modelled from Rust std `IpAddr::from_str`: try IPv4 first, then
IPv6. -/
def ipAddrFromChars (cs : List Char) : Option IpAddr :=
  match parseIpv4Chars cs with
  | some ip => some ip
  | none => parseIpv6Chars cs

/-- Modelled from Rust std `u16::from_str`: an optional leading plus
sign, then one or more decimal digits, value at most 65535. -/
def parseU16 (cs : List Char) : Option (Fin 65536) :=
  let ds := match cs with
    | '+' :: rest => rest
    | _ => cs
  if ds ≠ [] ∧ ds.all (·.isDigit) then toFin? 65536 (digitsToNat ds) else none

/-- Error cases of the avahi-browse line decoder; models `PacketParseError`
of `src/avahi_browse.rs` (the two transparent wrappers around
`AddrParseError` and `ParseIntError` are modelled as plain tags). -/
inductive PacketParseError where
  | modeParse (c : Char)
  | ipTypeParse (s : String)
  | notEnoughArgs
  | addrParse
  | intParse
deriving DecidableEq, Repr

/-- Announcement mode; models `PacketMode` of `src/avahi_browse.rs`. -/
inductive PacketMode where
  | new
  | resolved
  | exited
deriving DecidableEq, Repr

/-- Models `impl TryFrom<char> for PacketMode`. -/
def PacketMode.tryFromChar (c : Char) : Except PacketParseError PacketMode :=
  if c = '+' then .ok .new
  else if c = '=' then .ok .resolved
  else if c = '-' then .ok .exited
  else .error (.modeParse c)

/-- Address family token; models `IpType` of `src/avahi_browse.rs`. -/
inductive IpType where
  | v4
  | v6
deriving DecidableEq, Repr

/-- Models `impl TryFrom<String> for IpType`. -/
def IpType.tryFromString (s : String) : Except PacketParseError IpType :=
  if s = "IPv4" then .ok .v4
  else if s = "IPv6" then .ok .v6
  else .error (.ipTypeParse s)

/-- Common fields of every announcement; models `MdnsPacketBase` of
`src/avahi_browse.rs`. -/
structure MdnsPacketBase where
  interfaceName : String
  internetProtocol : IpType
  hostname : String
  serviceType : String
  domain : String
deriving DecidableEq, Repr

/-- Service data of a resolved announcement; models `Service` of
`src/avahi_browse.rs` (`port` is a `u16`, modelled as `Fin 65536`). -/
structure Service where
  name : String
  hostname : String
  ip : IpAddr
  port : Fin 65536
  data : List String
deriving DecidableEq, Repr

/-- A decoded announcement; models `MdnsPacket` of `src/avahi_browse.rs`. -/
inductive MdnsPacket where
  | new (base : MdnsPacketBase)
  | resolved (base : MdnsPacketBase) (service : Service)
  | exited (base : MdnsPacketBase)
deriving DecidableEq, Repr

/-- Replacement of every literal backslash-dot sequence by a dot; models
the `.replace` call on the hostname field (Rust `str::replace` with the
two-character pattern, left to right, non-overlapping). -/
def replaceEscapedDots : List Char → List Char
  | '\\' :: '.' :: rest => '.' :: replaceEscapedDots rest
  | c :: rest => c :: replaceEscapedDots rest
  | [] => []

/-- Modelled from `parse_escaped_ascii` of `src/avahi_browse.rs`: every
backslash followed by one to three decimal digits (greedy, as the regex
backslash-digits pattern matches; the regex digit class is modelled as
the ASCII digits) is replaced by the character with that code; a value
above 255 makes the `u8` parse fail and the source `panic!`, which is
modelled as `none`. -/
def parseEscapedChars : List Char → Option (List Char)
  | [] => some []
  | '\\' :: d1 :: d2 :: d3 :: rest =>
    if d1.isDigit then
      if d2.isDigit then
        if d3.isDigit then
          let n := digitsToNat [d1, d2, d3]
          if n ≤ 255 then (parseEscapedChars rest).map (Char.ofNat n :: ·)
          else none
        else
          (parseEscapedChars (d3 :: rest)).map (Char.ofNat (digitsToNat [d1, d2]) :: ·)
      else
        (parseEscapedChars (d2 :: d3 :: rest)).map (Char.ofNat (digitsToNat [d1]) :: ·)
    else
      (parseEscapedChars (d1 :: d2 :: d3 :: rest)).map ('\\' :: ·)
  | '\\' :: d1 :: d2 :: [] =>
    if d1.isDigit then
      if d2.isDigit then some [Char.ofNat (digitsToNat [d1, d2])]
      else (parseEscapedChars [d2]).map (Char.ofNat (digitsToNat [d1]) :: ·)
    else
      (parseEscapedChars [d1, d2]).map ('\\' :: ·)
  | '\\' :: d1 :: [] =>
    if d1.isDigit then some [Char.ofNat (digitsToNat [d1])]
    else (parseEscapedChars [d1]).map ('\\' :: ·)
  | '\\' :: [] => some ['\\']
  | c :: rest => (parseEscapedChars rest).map (c :: ·)

/-- Result of running a piece of Rust code that may panic: `panicked`
models a Rust `panic!` (an abort, not a value), `err` a returned error
value, `ok` a returned success value. -/
inductive RustResult (ε α : Type) where
  | panicked
  | err (e : ε)
  | ok (a : α)
deriving DecidableEq, Repr

/-- Mapping over the success value of a `RustResult`. -/
def RustResult.map (f : α → β) : RustResult ε α → RustResult ε β
  | .panicked => .panicked
  | .err e => .err e
  | .ok a => .ok (f a)

/-- Models `try_unwrap_arg` of `src/avahi_browse.rs`. -/
def tryUnwrapArg (arg : Option (List Char)) : Except PacketParseError (List Char) :=
  match arg with
  | none => .error .notEnoughArgs
  | some a => .ok a

/-- Modelled from `impl TryFrom<String> for MdnsPacket` of
`src/avahi_browse.rs`, working on the character list of the line: the
line is split on semicolons, the first six fields give the mode and the
base record (the hostname field is unescaped), a `Resolved` mode consumes
three further mandatory fields (resolved hostname, IP address, port) and
captures the remaining fields verbatim.  A `panic!` reached through
`parse_escaped_ascii` is `RustResult.panicked`. -/
def MdnsPacket.tryFromChars (cs : List Char) : RustResult PacketParseError MdnsPacket :=
  let fields := splitOnChar ';' cs
  match tryUnwrapArg (fields.get? 0) with
  | .error e => .err e
  | .ok f0 =>
  match f0.head? with
  | none => .err PacketParseError.notEnoughArgs
  | some c0 =>
  match PacketMode.tryFromChar c0 with
  | .error e => .err e
  | .ok mode =>
  match tryUnwrapArg (fields.get? 1) with
  | .error e => .err e
  | .ok f1 =>
  match tryUnwrapArg (fields.get? 2) with
  | .error e => .err e
  | .ok f2 =>
  match IpType.tryFromString (String.mk f2) with
  | .error e => .err e
  | .ok protocol =>
  match tryUnwrapArg (fields.get? 3) with
  | .error e => .err e
  | .ok f3 =>
  match parseEscapedChars (replaceEscapedDots f3) with
  | none => .panicked
  | some hostnameChars =>
  match tryUnwrapArg (fields.get? 4) with
  | .error e => .err e
  | .ok f4 =>
  match tryUnwrapArg (fields.get? 5) with
  | .error e => .err e
  | .ok f5 =>
  let base : MdnsPacketBase :=
    { interfaceName := String.mk f1
      internetProtocol := protocol
      hostname := String.mk hostnameChars
      serviceType := String.mk f4
      domain := String.mk f5 }
  match mode with
  | .new => .ok (MdnsPacket.new base)
  | .exited => .ok (MdnsPacket.exited base)
  | .resolved =>
    match tryUnwrapArg (fields.get? 6) with
    | .error e => .err e
    | .ok f6 =>
    match tryUnwrapArg (fields.get? 7) with
    | .error e => .err e
    | .ok f7 =>
    match ipAddrFromChars f7 with
    | none => .err PacketParseError.addrParse
    | some ip =>
    match tryUnwrapArg (fields.get? 8) with
    | .error e => .err e
    | .ok f8 =>
    match parseU16 f8 with
    | none => .err PacketParseError.intParse
    | some port =>
    .ok (MdnsPacket.resolved base
      { name := String.mk f4
        hostname := String.mk f6
        ip := ip
        port := port
        data := (fields.drop 9).map String.mk })

/-- The string-level entry point of the decoder; models
`MdnsPacket::try_from(line.to_string())`. -/
def MdnsPacket.tryFrom (s : String) : RustResult PacketParseError MdnsPacket :=
  MdnsPacket.tryFromChars s.data

/-- Error cases of URL parsing reachable from the inputs the source
builds; models the corresponding variants of `url::ParseError`. -/
inductive UrlParseError where
  | emptyHost
  | invalidPort
  | relativeUrlWithoutBase
deriving DecidableEq, Repr

/-- A parsed URL, restricted to the components the source uses; models
`url::Url` for URLs of the special scheme `http`. -/
structure Url where
  host : String
  port : Option Nat
  path : String
deriving DecidableEq, Repr

/-- Path component of a parsed http URL: for a special scheme an absent
path serializes as a single slash. -/
def mkPath (cs : List Char) : String :=
  if cs = [] then "/" else String.mk cs

/-- Modelled from `url::Url::parse` on the inputs the source builds with
its http format string: after the `http://` scheme prefix, the host runs
to the first colon or slash and must be non-empty, an optional port of
decimal digits at most 65535 follows a colon (a non-digit in the port is
`invalidPort`; the http default port 80 is elided), and the rest is the
path.  Host validity checks beyond non-emptiness are not modelled: every
host the source can produce (dotted-decimal quads and hex groups) passes
them.  This doc applies to the whole group `hostPred`, `parsePort`,
`hostRest`, `parseAuthority`, `urlParseChars`; `hostPred` is the
host-terminator test (host runs while neither colon nor slash). -/
def hostPred (c : Char) : Bool := c != ':' && c != '/'

/-- Port-and-path stage of the authority parser: the port runs to the
first slash and must be decimal digits of value at most 65535 (the http
default port 80 is elided), the rest is the path. -/
def parsePort (hostCs : List Char) (r2 : List Char) : Except UrlParseError Url :=
  let portCs := r2.takeWhile (fun c => c != '/')
  let pathCs := r2.dropWhile (fun c => c != '/')
  if portCs = [] then .ok ⟨String.mk hostCs, none, mkPath pathCs⟩
  else if portCs.all (·.isDigit) then
    if digitsToNat portCs ≤ 65535 then
      .ok ⟨String.mk hostCs, if digitsToNat portCs = 80 then none else some (digitsToNat portCs),
        mkPath pathCs⟩
    else .error .invalidPort
  else .error .invalidPort

/-- Dispatch after the host: a colon starts the port, anything else is
the path. -/
def hostRest (hostCs : List Char) : List Char → Except UrlParseError Url
  | ':' :: r2 => parsePort hostCs r2
  | pathCs => .ok ⟨String.mk hostCs, none, mkPath pathCs⟩

def parseAuthority (rest : List Char) : Except UrlParseError Url :=
  if rest.takeWhile hostPred = [] then .error .emptyHost
  else hostRest (rest.takeWhile hostPred) (rest.dropWhile hostPred)

/-- Scheme prefix dispatch of the URL parser model: only the `http://`
inputs the source builds are in scope. -/
def urlParseChars (cs : List Char) : Except UrlParseError Url :=
  match cs with
  | 'h' :: 't' :: 't' :: 'p' :: ':' :: '/' :: '/' :: rest => parseAuthority rest
  | _ => .error .relativeUrlWithoutBase

/-- Characters of the URL string the device resolver builds; models the
format string of `Device::from_packet` in `src/mdns/avahi.rs`, which
formats the scheme, the displayed IP address, a colon and the decimal
port. -/
def deviceUrlChars (ip : IpAddr) (port : Nat) : List Char :=
  'h' :: 't' :: 't' :: 'p' :: ':' :: '/' :: '/' :: (ip.displayChars ++ ':' :: toDecChars port)

/-- A discovered device; models `Device` of `src/mdns/avahi.rs`.  Note
the source defines `PartialEq`, `Eq` and `Hash` for `Device` by `name`
alone; state-machine definitions below compare names accordingly. -/
structure Device where
  name : String
  url : Url
deriving DecidableEq, Repr

/-- Models `Device::from_packet` of `src/mdns/avahi.rs`: `None` for `New`
and `Exited`, and for `Resolved` a device named by the base hostname
whose URL is the parse of the formatted address, propagating the URL
parse error.  The Rust function cannot panic, so the result is a plain
`Except`. -/
def Device.fromPacket : MdnsPacket → Except UrlParseError (Option Device)
  | .new _ => .ok none
  | .exited _ => .ok none
  | .resolved base service =>
    match urlParseChars (deviceUrlChars service.ip service.port.val) with
    | .error e => .error e
    | .ok url => .ok (some { name := base.hostname, url := url })

/-- The registry of currently-known devices; models `AvahiState` of
`src/mdns/avahi.rs`. -/
structure AvahiState where
  devices : List Device
deriving DecidableEq, Repr

/-- Outcome of one registry transition: the Rust method returns
`Result<(), url::ParseError>` and can in principle reach an `unwrap`
panic (modelled by `panicked`; it is unreachable, see
`fromPacket_resolved_not_none`). -/
inductive ProcOutcome where
  | panicked
  | failed (e : UrlParseError)
  | succeeded
deriving DecidableEq, Repr

/-- Models `AvahiState::process_packet` of `src/mdns/avahi.rs`: `New` is
ignored; `Resolved` resolves the device and appends it unless a device
with an equal name (the `Device` equality) is already present; `Exited`
removes the device at the first position whose name is NOT equal to the
exiting hostname, when one exists - this inverted comparison is the
source's own.  The returned state is the mutated `self`. -/
def AvahiState.processPacket (st : AvahiState) (packet : MdnsPacket) :
    ProcOutcome × AvahiState :=
  match packet with
  | .new _ => (.succeeded, st)
  | .resolved base service =>
    match Device.fromPacket (.resolved base service) with
    | .error e => (.failed e, st)
    | .ok none => (.panicked, st)
    | .ok (some newDevice) =>
      if st.devices.any (fun d => d.name == newDevice.name) then (.succeeded, st)
      else (.succeeded, ⟨st.devices ++ [newDevice]⟩)
  | .exited base =>
    match st.devices.findIdx? (fun d => d.name != base.hostname) with
    | some idx => (.succeeded, ⟨st.devices.eraseIdx idx⟩)
    | none => (.succeeded, st)

/-- Models the decoding loop of `exec_avahi_browse` in
`src/mdns/avahi.rs`: every captured output line is decoded and the
results collected; the first line that returns an error aborts the batch
with that error, and a line that panics aborts the whole call with the
panic. -/
def decodeLines : List String → RustResult PacketParseError (List MdnsPacket)
  | [] => .ok []
  | l :: ls =>
    match MdnsPacket.tryFrom l with
    | .panicked => .panicked
    | .err e => .err e
    | .ok p => (decodeLines ls).map (p :: ·)

/-- First-occurrence deduplication by device name; models the itertools
`unique()` adaptor applied to `Device` values (whose equality and hash
are by name). -/
def uniqueByNameAux (seen : List String) : List Device → List Device
  | [] => []
  | d :: ds =>
    if seen.contains d.name then uniqueByNameAux seen ds
    else d :: uniqueByNameAux (d.name :: seen) ds

/-- First-occurrence deduplication by device name, starting from no seen
names. -/
def uniqueByName (l : List Device) : List Device := uniqueByNameAux [] l

/-- Models the resolution stage of `find_elgato_devices` in
`src/mdns/avahi.rs`: each decoded announcement is resolved with
`Device::from_packet`, a resolution error is logged and dropped
(`unwrap_or_else` to `None`), non-resolved announcements are dropped,
and the result is deduplicated by name keeping first occurrences. -/
def resolveDevices (packets : List MdnsPacket) : List Device :=
  uniqueByName (packets.filterMap (fun p =>
    match Device.fromPacket p with
    | .ok o => o
    | .error _ => none))

/-- Models `find_elgato_devices` of `src/mdns/avahi.rs` on a captured
list of output lines: decode every line (fail-fast), then resolve,
skip-on-error, and deduplicate. -/
def findElgatoDevices (lines : List String) : RustResult PacketParseError (List Device) :=
  match decodeLines lines with
  | .panicked => .panicked
  | .err e => .err e
  | .ok packets => .ok (resolveDevices packets)

/-- A concrete URL value used by the concrete registry evaluations. -/
def exUrl : Url := { host := "10.0.0.1", port := some 9123, path := "/" }

/-- A concrete device used by the concrete registry evaluations. -/
def devLightA : Device := { name := "lightA", url := exUrl }

/-- A second concrete device used by the concrete registry evaluations. -/
def devLightB : Device := { name := "lightB", url := exUrl }

/-- A concrete announcement base with the given hostname. -/
def exBase (h : String) : MdnsPacketBase :=
  { interfaceName := "enp6s0", internetProtocol := IpType.v4, hostname := h
    serviceType := "_elg._tcp", domain := "local" }

/-- A concrete IPv4 service record (the repository's own test address). -/
def svcV4 : Service :=
  { name := "_elg._tcp", hostname := "elgato-key-light-8d7c.local"
    ip := IpAddr.v4 192 168 0 92, port := 9123, data := [] }

/-- A concrete IPv6 service record at the loopback address. -/
def svcV6Loopback : Service :=
  { name := "_elg._tcp", hostname := "h.local"
    ip := IpAddr.v6 0 0 0 0 0 0 0 1, port := 9123, data := [] }

/-- A concrete IPv6 service record at a link-local address. -/
def svcV6LinkLocal : Service :=
  { name := "_elg._tcp", hostname := "h.local"
    ip := IpAddr.v6 65152 0 0 0 0 0 0 1, port := 9123, data := [] }


theorem hexDigitChar_ne : ∀ k < 16, hexDigitChar k ≠ ':' ∧ hexDigitChar k ≠ '/' := by decide

theorem mem_toDigitsAux (base : Nat) (hb : 0 < base) (hb16 : base ≤ 16) :
    ∀ (fuel n : Nat) (acc : List Char) (c : Char),
      c ∈ toDigitsAux base fuel n acc → c ∈ acc ∨ ∃ k, k < 16 ∧ c = hexDigitChar k := by
  intro fuel
  induction fuel with
  | zero => intro n acc c h; exact Or.inl h
  | succ fuel ih =>
    intro n acc c h
    rw [toDigitsAux] at h
    by_cases hn : n < base
    · rw [if_pos hn] at h
      rcases List.mem_cons.mp h with h | h
      · exact Or.inr ⟨n, by omega, h⟩
      · exact Or.inl h
    · rw [if_neg hn] at h
      rcases ih (n / base) _ c h with h | h
      · rcases List.mem_cons.mp h with h | h
        · have := Nat.mod_lt n hb
          exact Or.inr ⟨n % base, by omega, h⟩
        · exact Or.inl h
      · exact Or.inr h

theorem mem_toDecChars {c : Char} {n : Nat} (h : c ∈ toDecChars n) :
    ∃ k, k < 16 ∧ c = hexDigitChar k := by
  rcases mem_toDigitsAux 10 (by omega) (by omega) _ _ _ _ h with h | h
  · simp at h
  · exact h

theorem mem_toHexChars {c : Char} {n : Nat} (h : c ∈ toHexChars n) :
    ∃ k, k < 16 ∧ c = hexDigitChar k := by
  rcases mem_toDigitsAux 16 (by omega) (by omega) _ _ _ _ h with h | h
  · simp at h
  · exact h

theorem colon_not_mem_toDecChars (n : Nat) : ':' ∉ toDecChars n := by
  intro h
  obtain ⟨k, hk, he⟩ := mem_toDecChars h
  exact (hexDigitChar_ne k hk).1 he.symm

theorem slash_not_mem_toDecChars (n : Nat) : '/' ∉ toDecChars n := by
  intro h
  obtain ⟨k, hk, he⟩ := mem_toDecChars h
  exact (hexDigitChar_ne k hk).2 he.symm

theorem slash_not_mem_toHexChars (n : Nat) : '/' ∉ toHexChars n := by
  intro h
  obtain ⟨k, hk, he⟩ := mem_toHexChars h
  exact (hexDigitChar_ne k hk).2 he.symm

theorem mem_ipv4Chars {c : Char} {a b d e : Nat} (h : c ∈ ipv4Chars a b d e) :
    c = '.' ∨ ∃ k, k < 16 ∧ c = hexDigitChar k := by
  simp only [ipv4Chars, List.mem_append, List.mem_cons] at h
  rcases h with ((h | h | h) | h | h) | h | h
  · exact Or.inr (mem_toDecChars h)
  · exact Or.inl h
  · exact Or.inr (mem_toDecChars h)
  · exact Or.inl h
  · exact Or.inr (mem_toDecChars h)
  · exact Or.inl h
  · exact Or.inr (mem_toDecChars h)

theorem slash_not_mem_ipv4Chars (a b d e : Nat) : '/' ∉ ipv4Chars a b d e := by
  intro h
  rcases mem_ipv4Chars h with h | ⟨k, hk, he⟩
  · cases h
  · exact (hexDigitChar_ne k hk).2 he.symm

theorem mem_fmtSubslice {c : Char} :
    ∀ {l : List Nat}, c ∈ fmtSubslice l → c = ':' ∨ ∃ k, k < 16 ∧ c = hexDigitChar k := by
  intro l
  induction l with
  | nil => intro h; simp [fmtSubslice] at h
  | cons n rest ih =>
    intro h
    cases rest with
    | nil => exact Or.inr (mem_toHexChars h)
    | cons m more =>
      simp only [fmtSubslice, List.mem_append, List.mem_cons] at h
      rcases h with h | h | h
      · exact Or.inr (mem_toHexChars h)
      · exact Or.inl h
      · exact ih h

theorem mem_ipv6DisplayChars {c : Char} {s0 s1 s2 s3 s4 s5 s6 s7 : Nat}
    (h : c ∈ ipv6DisplayChars s0 s1 s2 s3 s4 s5 s6 s7) :
    c = ':' ∨ c = '.' ∨ ∃ k, k < 16 ∧ c = hexDigitChar k := by
  simp only [ipv6DisplayChars] at h
  split at h
  · simp only [List.mem_cons] at h
    rcases h with rfl | rfl | rfl | rfl | rfl | rfl | rfl | h
    · exact Or.inl rfl
    · exact Or.inl rfl
    · exact Or.inr (Or.inr ⟨15, by omega, rfl⟩)
    · exact Or.inr (Or.inr ⟨15, by omega, rfl⟩)
    · exact Or.inr (Or.inr ⟨15, by omega, rfl⟩)
    · exact Or.inr (Or.inr ⟨15, by omega, rfl⟩)
    · exact Or.inl rfl
    · rcases mem_ipv4Chars h with h | h
      · exact Or.inr (Or.inl h)
      · exact Or.inr (Or.inr h)
  · split at h
    · simp only [List.mem_append, List.mem_cons] at h
      rcases h with h | h | h | h
      · rcases mem_fmtSubslice h with h | h
        · exact Or.inl h
        · exact Or.inr (Or.inr h)
      · exact Or.inl h
      · exact Or.inl h
      · rcases mem_fmtSubslice h with h | h
        · exact Or.inl h
        · exact Or.inr (Or.inr h)
    · rcases mem_fmtSubslice h with h | h
      · exact Or.inl h
      · exact Or.inr (Or.inr h)

theorem slash_not_mem_ipv6DisplayChars (s0 s1 s2 s3 s4 s5 s6 s7 : Nat) :
    '/' ∉ ipv6DisplayChars s0 s1 s2 s3 s4 s5 s6 s7 := by
  intro h
  rcases mem_ipv6DisplayChars h with h | h | ⟨k, hk, he⟩
  · cases h
  · cases h
  · exact (hexDigitChar_ne k hk).2 he.symm

theorem colon_mem_fmtSubslice (n m : Nat) (l : List Nat) : ':' ∈ fmtSubslice (n :: m :: l) := by
  simp [fmtSubslice, List.mem_append]

theorem colon_mem_ipv6DisplayChars (s0 s1 s2 s3 s4 s5 s6 s7 : Nat) :
    ':' ∈ ipv6DisplayChars s0 s1 s2 s3 s4 s5 s6 s7 := by
  simp only [ipv6DisplayChars]
  split
  · simp
  · split
    · simp [List.mem_append]
    · exact colon_mem_fmtSubslice _ _ _

theorem slash_not_mem_displayChars (ip : IpAddr) : '/' ∉ ip.displayChars := by
  cases ip with
  | v4 a b c d => exact slash_not_mem_ipv4Chars _ _ _ _
  | v6 s0 s1 s2 s3 s4 s5 s6 s7 => exact slash_not_mem_ipv6DisplayChars _ _ _ _ _ _ _ _

theorem toDigitsAux_ne_nil (base : Nat) : ∀ (fuel n : Nat) (acc : List Char),
    toDigitsAux base (fuel + 1) n acc ≠ [] := by
  intro fuel
  induction fuel with
  | zero =>
    intro n acc
    rw [toDigitsAux]
    split
    · simp
    · rw [toDigitsAux]; simp
  | succ fuel ih =>
    intro n acc
    rw [toDigitsAux]
    split
    · simp
    · exact ih (n / base) _

theorem toDecChars_ne_nil (n : Nat) : toDecChars n ≠ [] := toDigitsAux_ne_nil 10 n n []

theorem takeWhile_append_of_bad {p : Char → Bool} :
    ∀ (xs ys : List Char) (x : Char), x ∈ xs → p x = false →
      (xs ++ ys).takeWhile p = xs.takeWhile p ∧ (xs ++ ys).dropWhile p = xs.dropWhile p ++ ys := by
  intro xs
  induction xs with
  | nil => intro ys x hx; cases hx
  | cons a as ih =>
    intro ys x hx hpx
    by_cases hpa : p a = true
    · have hxas : x ∈ as := by
        rcases List.mem_cons.mp hx with rfl | h
        · rw [hpa] at hpx; cases hpx
        · exact h
      obtain ⟨h1, h2⟩ := ih ys x hxas hpx
      constructor
      · simp only [List.cons_append, List.takeWhile_cons, hpa, if_true, h1]
      · simp only [List.cons_append, List.dropWhile_cons, hpa, if_true, h2]
    · have hpa' : p a = false := by revert hpa; cases p a <;> simp
      constructor
      · simp [List.takeWhile_cons, hpa']
      · simp [List.dropWhile_cons, hpa']

theorem dropWhile_head_false {p : Char → Bool} :
    ∀ (l : List Char) (c : Char) (t : List Char), l.dropWhile p = c :: t →
      p c = false ∧ c ∈ l ∧ ∀ x ∈ t, x ∈ l := by
  intro l
  induction l with
  | nil => intro c t h; cases h
  | cons a as ih =>
    intro c t h
    rw [List.dropWhile_cons] at h
    by_cases hpa : p a = true
    · rw [if_pos hpa] at h
      obtain ⟨h1, h2, h3⟩ := ih c t h
      exact ⟨h1, List.mem_cons_of_mem _ h2, fun x hx => List.mem_cons_of_mem _ (h3 x hx)⟩
    · rw [if_neg hpa] at h
      cases h
      have hpa' : p a = false := by revert hpa; cases p a <;> simp
      exact ⟨hpa', List.mem_cons_self _ _, fun x hx => List.mem_cons_of_mem _ hx⟩

theorem dropWhile_eq_nil_all {p : Char → Bool} {l : List Char} (h : l.dropWhile p = []) :
    ∀ x ∈ l, p x = true := by
  induction l with
  | nil => intro x hx; cases hx
  | cons a as ih =>
    rw [List.dropWhile_cons] at h
    by_cases hpa : p a = true
    · rw [if_pos hpa] at h
      intro x hx
      rcases List.mem_cons.mp hx with rfl | hx
      · exact hpa
      · exact ih h x hx
    · rw [if_neg hpa] at h
      cases h

theorem hostRest_colon (hostCs r2 : List Char) :
    hostRest hostCs (':' :: r2) = parsePort hostCs r2 := rfl

theorem hostRest_nil (hostCs : List Char) :
    hostRest hostCs [] = .ok ⟨String.mk hostCs, none, mkPath []⟩ := rfl

theorem dropWhile_eq_nil_of_all {p : Char → Bool} :
    ∀ {l : List Char}, (∀ x ∈ l, p x = true) → l.dropWhile p = [] := by
  intro l h
  induction l with
  | nil => rfl
  | cons a as ih =>
    rw [List.dropWhile_cons, if_pos (h a (List.mem_cons_self _ _))]
    exact ih (fun x hx => h x (List.mem_cons_of_mem _ hx))

theorem parseAuthority_error_of_colon {D P : List Char}
    (hcolon : ':' ∈ D) (hslashD : '/' ∉ D) (hslashP : '/' ∉ P) :
    ∃ e, parseAuthority (D ++ ':' :: P) = Except.error e := by
  have hbad : hostPred ':' = false := by decide
  obtain ⟨hT, hDr⟩ := takeWhile_append_of_bad D (':' :: P) ':' hcolon hbad
  rw [parseAuthority, hT, hDr]
  by_cases hhost : D.takeWhile hostPred = []
  · rw [if_pos hhost]
    exact ⟨_, rfl⟩
  · rw [if_neg hhost]
    cases hdw : D.dropWhile hostPred with
    | nil =>
      exfalso
      have := dropWhile_eq_nil_all hdw ':' hcolon
      rw [hbad] at this
      cases this
    | cons c t =>
      obtain ⟨hqc, hcD, htD⟩ := dropWhile_head_false D c t hdw
      have hc : c = ':' := by
        by_cases h1 : c = ':'
        · exact h1
        · exfalso
          by_cases h2 : c = '/'
          · exact hslashD (h2 ▸ hcD)
          · rw [show hostPred c = true by simp [hostPred, h1, h2]] at hqc
            cases hqc
      subst hc
      rw [List.cons_append, hostRest_colon]
      rw [parsePort]
      have hnoSlash : ∀ x ∈ t ++ ':' :: P, (x != '/') = true := by
        intro x hx
        rcases List.mem_append.mp hx with hx | hx
        · have : x ∈ D := htD x hx
          simp only [bne_iff_ne, ne_eq]
          intro hs
          exact hslashD (hs ▸ this)
        · rcases List.mem_cons.mp hx with rfl | hx
          · decide
          · simp only [bne_iff_ne, ne_eq]
            intro hs
            exact hslashP (hs ▸ hx)
      rw [List.takeWhile_eq_self_iff.mpr hnoSlash]
      have hne : t ++ ':' :: P ≠ [] := by simp
      rw [if_neg hne]
      have hall : (t ++ ':' :: P).all (·.isDigit) = false := by
        cases hallc : (t ++ ':' :: P).all (·.isDigit) with
        | false => rfl
        | true =>
          exfalso
          have := List.all_eq_true.mp hallc ':' (by simp)
          cases this
      rw [hall]
      simp only [Bool.false_eq_true, if_false]
      exact ⟨_, rfl⟩

theorem parseAuthority_ok_path {rest : List Char} (hs : '/' ∉ rest) {u : Url}
    (h : parseAuthority rest = .ok u) : u.path = "/" := by
  rw [parseAuthority] at h
  by_cases hhost : rest.takeWhile hostPred = []
  · rw [if_pos hhost] at h
    cases h
  · rw [if_neg hhost] at h
    cases hdw : rest.dropWhile hostPred with
    | nil =>
      rw [hdw, hostRest_nil] at h
      cases h
      rfl
    | cons c t =>
      obtain ⟨hqc, hcmem, htmem⟩ := dropWhile_head_false rest c t hdw
      have hc : c = ':' := by
        by_cases h1 : c = ':'
        · exact h1
        · exfalso
          by_cases h2 : c = '/'
          · exact hs (h2 ▸ hcmem)
          · rw [show hostPred c = true by simp [hostPred, h1, h2]] at hqc
            cases hqc
      subst hc
      rw [hdw, hostRest_colon, parsePort] at h
      have hpath : t.dropWhile (fun c => c != '/') = [] := by
        apply dropWhile_eq_nil_of_all
        intro x hx
        simp only [bne_iff_ne, ne_eq]
        intro hxs
        exact hs (hxs ▸ htmem x hx)
      rw [hpath] at h
      by_cases hport : t.takeWhile (fun c => c != '/') = []
      · rw [if_pos hport] at h
        cases h
        rfl
      · rw [if_neg hport] at h
        by_cases hall : (t.takeWhile (fun c => c != '/')).all (·.isDigit) = true
        · rw [if_pos hall] at h
          by_cases hval : digitsToNat (t.takeWhile (fun c => c != '/')) ≤ 65535
          · rw [if_pos hval] at h
            cases h
            rfl
          · rw [if_neg hval] at h
            cases h
        · rw [if_neg hall] at h
          cases h

theorem urlParseChars_deviceUrl (ip : IpAddr) (port : Nat) :
    urlParseChars (deviceUrlChars ip port) =
      parseAuthority (ip.displayChars ++ ':' :: toDecChars port) := rfl

theorem fromPacket_resolved_eq (b : MdnsPacketBase) (s : Service) :
    Device.fromPacket (.resolved b s) =
      match parseAuthority (s.ip.displayChars ++ ':' :: toDecChars s.port.val) with
      | .error e => .error e
      | .ok url => .ok (some ⟨b.hostname, url⟩) := rfl

theorem fromPacket_resolved_not_none (b : MdnsPacketBase) (s : Service) :
    Device.fromPacket (.resolved b s) ≠ .ok none := by
  rw [fromPacket_resolved_eq]
  cases parseAuthority (s.ip.displayChars ++ ':' :: toDecChars s.port.val) <;> simp

theorem fromPacket_resolved_name {b : MdnsPacketBase} {s : Service} {d : Device}
    (h : Device.fromPacket (.resolved b s) = .ok (some d)) : d.name = b.hostname := by
  rw [fromPacket_resolved_eq] at h
  cases hpa : parseAuthority (s.ip.displayChars ++ ':' :: toDecChars s.port.val) with
  | error e => rw [hpa] at h; cases h
  | ok url =>
    rw [hpa] at h
    cases h
    rfl

theorem resolveDevices_skip_error {p : MdnsPacket} {e : UrlParseError}
    (h : Device.fromPacket p = .error e) (ps1 ps2 : List MdnsPacket) :
    resolveDevices (ps1 ++ p :: ps2) = resolveDevices (ps1 ++ ps2) := by
  simp [resolveDevices, List.filterMap_append, List.filterMap_cons, h]

/-- Claim C1: the claim states that an `Exited` announcement removes
exactly the device whose name equals the announcement's base hostname and
is a no-op when that name is absent.  The source instead searches for the
first device whose name is NOT equal to the exiting hostname
(`position(|device| device.name != base.hostname)`), so: exiting
`lightB` with `lightA, lightB` present removes `lightA`; exiting
`lightA` when it is the only device leaves it in place; exiting an
absent name removes an unrelated device.  This theorem evaluates the
model at those inputs, exhibiting the inverted behavior. -/
theorem exited_removal_inverted_eval :
    ((AvahiState.mk [devLightA, devLightB]).processPacket
        (.exited (exBase "lightB"))).2.devices = [devLightB] ∧
    ((AvahiState.mk [devLightA]).processPacket
        (.exited (exBase "lightA"))).2.devices = [devLightA] ∧
    ((AvahiState.mk [devLightA]).processPacket
        (.exited (exBase "lightZ"))).2.devices = [] := by
  refine ⟨?_, ?_, ?_⟩ <;> rfl

/-- Claim C2: for every registry state containing at most one device per
distinct name (names pairwise distinct) and every announcement, the
state after `AvahiState::process_packet` still contains at most one
device per distinct name; name-uniqueness is an invariant of every
transition of the registry state machine. -/
theorem registry_name_uniqueness_invariant (st : AvahiState) (p : MdnsPacket)
    (h : st.devices.Pairwise (fun a b => a.name ≠ b.name)) :
    ((st.processPacket p).2).devices.Pairwise (fun a b => a.name ≠ b.name) := by
  cases p with
  | new base => exact h
  | exited base =>
    cases hidx : st.devices.findIdx? (fun d => d.name != base.hostname) with
    | none =>
      have hst : (st.processPacket (.exited base)).2 = st := by
        simp [AvahiState.processPacket, hidx]
      rw [hst]
      exact h
    | some idx =>
      have hst : (st.processPacket (.exited base)).2 = ⟨st.devices.eraseIdx idx⟩ := by
        simp [AvahiState.processPacket, hidx]
      rw [hst]
      exact List.Pairwise.sublist (List.eraseIdx_sublist st.devices idx) h
  | resolved base service =>
    cases hfp : Device.fromPacket (.resolved base service) with
    | error e =>
      have hst : (st.processPacket (.resolved base service)).2 = st := by
        simp [AvahiState.processPacket, hfp]
      rw [hst]
      exact h
    | ok o =>
      cases o with
      | none =>
        have hst : (st.processPacket (.resolved base service)).2 = st := by
          simp [AvahiState.processPacket, hfp]
        rw [hst]
        exact h
      | some d =>
        by_cases hany : st.devices.any (fun x => x.name == d.name) = true
        · have hst : (st.processPacket (.resolved base service)).2 = st := by
            simp [AvahiState.processPacket, hfp, hany]
          rw [hst]
          exact h
        · have hany' : st.devices.any (fun x => x.name == d.name) = false := by
            revert hany
            cases st.devices.any (fun x => x.name == d.name) <;> simp
          have hst : (st.processPacket (.resolved base service)).2 = ⟨st.devices ++ [d]⟩ := by
            simp [AvahiState.processPacket, hfp, hany']
          rw [hst]
          show (st.devices ++ [d]).Pairwise (fun a b => a.name ≠ b.name)
          rw [List.pairwise_append]
          refine ⟨h, List.pairwise_singleton _ _, ?_⟩
          intro a ha b hb
          rcases List.mem_singleton.mp hb with rfl
          have := List.any_eq_false.mp hany' a ha
          simpa using this

/-- Witness for claim C2 at a concrete two-device registry and a concrete
resolved announcement. -/
theorem registry_name_uniqueness_invariant_witness :
    [devLightA, devLightB].Pairwise (fun a b => a.name ≠ b.name) ∧
    (((AvahiState.mk [devLightA, devLightB]).processPacket
        (.resolved (exBase "lightC") svcV4)).2).devices.Pairwise
      (fun a b => a.name ≠ b.name) := by
  have hpw : ([devLightA, devLightB] : List Device).Pairwise (fun a b => a.name ≠ b.name) := by
    refine List.Pairwise.cons ?_ (List.pairwise_singleton _ _)
    intro b hb
    rcases List.mem_singleton.mp hb with rfl
    decide
  exact ⟨hpw, registry_name_uniqueness_invariant ⟨[devLightA, devLightB]⟩ _ hpw⟩

/-- Claim C3: the claim states that the escape decoder replaces each
backslash followed by one to three decimal digits by the character of
that code, passes other text through, and returns a decode error value
for out-of-range values, never aborting.  The source's
`parse_escaped_ascii` instead executes `panic!` when the digits parse to
a value above 255 (modelled by `none`).  This theorem evaluates the
model: the in-range and pass-through behavior hold, but the out-of-range
input panics instead of producing an error value. -/
theorem escape_decoder_panics_eval :
    parseEscapedChars (("\\256").data) = none ∧
    parseEscapedChars (("\\032").data) = some ((" ").data) ∧
    parseEscapedChars (("abc\\065d").data) = some (("abcAd").data) ∧
    parseEscapedChars (("no escapes").data) = some (("no escapes").data) := by
  refine ⟨rfl, rfl, rfl, rfl⟩

/-- Claim C4 counterexample: the claim quantifies over every registry
state; at a state that already holds two devices named `lightA`,
applying the same successfully-resolving `Resolved` announcement for
`lightA` twice leaves two devices of that name, not exactly one. -/
theorem resolved_twice_counterexample :
    ¬ (((((AvahiState.mk [devLightA, ⟨"lightA", ⟨"10.0.0.2", none, "/"⟩⟩]).processPacket
          (.resolved (exBase "lightA") svcV4)).2).processPacket
          (.resolved (exBase "lightA") svcV4)).2.devices.countP
        (fun d => d.name == "lightA") = 1) := by decide

/-- Claim C4 (amended): for every registry state containing at most one
device with the announcement's name, and every `Resolved` announcement
whose device resolution succeeds, applying the announcement twice in
sequence yields a registry with exactly one device of that name, and the
second application is a no-op on the contents (device identity is by
name alone). -/
theorem resolved_twice_idempotent (st : AvahiState) (b : MdnsPacketBase) (s : Service)
    (d : Device)
    (h1 : st.devices.countP (fun x => x.name == b.hostname) ≤ 1)
    (h2 : Device.fromPacket (.resolved b s) = .ok (some d)) :
    ((((st.processPacket (.resolved b s)).2).processPacket (.resolved b s)).2).devices.countP
        (fun x => x.name == b.hostname) = 1 ∧
    ((((st.processPacket (.resolved b s)).2).processPacket (.resolved b s)).2).devices =
      ((st.processPacket (.resolved b s)).2).devices := by
  have hdn : d.name = b.hostname := fromPacket_resolved_name h2
  by_cases hany : st.devices.any (fun x => x.name == d.name) = true
  · have hst1 : (st.processPacket (.resolved b s)).2 = st := by
      simp [AvahiState.processPacket, h2, hany]
    rw [hst1, hst1]
    constructor
    · obtain ⟨x, hxmem, hx⟩ := List.any_eq_true.mp hany
      have hpos : 0 < st.devices.countP (fun y => y.name == b.hostname) :=
        List.countP_pos_iff.mpr ⟨x, hxmem, by rw [← hdn]; exact hx⟩
      omega
    · rfl
  · have hany' : st.devices.any (fun x => x.name == d.name) = false := by
      revert hany
      cases st.devices.any (fun x => x.name == d.name) <;> simp
    have hst1 : (st.processPacket (.resolved b s)).2 = ⟨st.devices ++ [d]⟩ := by
      simp [AvahiState.processPacket, h2, hany']
    have hany2 : (st.devices ++ [d]).any (fun x => x.name == d.name) = true :=
      List.any_eq_true.mpr ⟨d, by simp, by simp⟩
    have hst2 : ((⟨st.devices ++ [d]⟩ : AvahiState).processPacket (.resolved b s)).2 =
        ⟨st.devices ++ [d]⟩ := by
      simp [AvahiState.processPacket, h2, hany2]
    rw [hst1, hst2]
    constructor
    · show (st.devices ++ [d]).countP (fun x => x.name == b.hostname) = 1
      rw [List.countP_append]
      have hzero : st.devices.countP (fun x => x.name == b.hostname) = 0 := by
        rw [List.countP_eq_zero]
        intro a ha
        have hne := List.any_eq_false.mp hany' a ha
        rw [hdn] at hne
        exact hne
      rw [hzero]
      simp [List.countP_cons, hdn]
    · rfl

/-- Witness for the amended claim C4 at the empty registry and a concrete
IPv4 resolved announcement. -/
theorem resolved_twice_idempotent_witness :
    ((((AvahiState.mk []).processPacket (.resolved (exBase "lightA") svcV4)).2.processPacket
        (.resolved (exBase "lightA") svcV4)).2).devices.countP
      (fun x => x.name == (exBase "lightA").hostname) = 1 ∧
    ((((AvahiState.mk []).processPacket (.resolved (exBase "lightA") svcV4)).2.processPacket
        (.resolved (exBase "lightA") svcV4)).2).devices =
      (((AvahiState.mk []).processPacket (.resolved (exBase "lightA") svcV4)).2).devices :=
  resolved_twice_idempotent ⟨[]⟩ (exBase "lightA") svcV4
    ⟨"lightA", ⟨"192.168.0.92", some 9123, "/"⟩⟩ (by simp) rfl

/-- Claim C5: the claim states that the one-shot decode loop returns a
decode error (and no partial list) whenever any line fails to decode,
and a list only when every line decodes.  The fail-fast error path does
hold, but a line whose hostname escape is out of range makes the decoder
panic (via the `parse_escaped_ascii` defect), so the call aborts instead
of returning a decode error value.  This theorem evaluates the model:
the panic case, the error fail-fast case, and the all-success case. -/
theorem decode_batch_panic_eval :
    decodeLines [("+;a;IPv4;\\256;s;d")] = .panicked ∧
    decodeLines [("+;enp6s0;IPv4;h;s;d"), ("x;enp6s0;IPv4;h;s;d")] =
      .err (.modeParse 'x') ∧
    decodeLines [("+;enp6s0;IPv4;h;s;d")] =
      .ok [.new ⟨"enp6s0", IpType.v4, "h", "s", "d"⟩] := by
  refine ⟨rfl, rfl, rfl⟩

/-- Claim C6 counterexample: the claim states that a URL-construction
failure in `Device::from_packet` is propagated by `find_elgato_devices`
as a hard error.  At the concrete IPv6-resolved line below the packet's
device resolution fails with a URL parse error, yet the one-shot call
returns an ordinary (empty) device list, not an error. -/
theorem url_error_skipped_counterexample :
    Device.fromPacket (.resolved ⟨"eth0", IpType.v6, "host", "_elg._tcp", "local"⟩
        ⟨"_elg._tcp", "h.local", IpAddr.v6 65152 0 0 0 0 0 0 1, 9123, []⟩) =
      .error .invalidPort ∧
    findElgatoDevices [("=;eth0;IPv6;host;_elg._tcp;local;h.local;fe80::1;9123")] =
      .ok [] := by
  refine ⟨rfl, rfl⟩

/-- Claim C6 (amended): when `Device::from_packet` fails with a
URL-construction error for a decoded `Resolved` announcement,
`find_elgato_devices` logs and skips that device: the resolved device
list is exactly the one obtained without the failing announcement, and
no error is propagated. -/
theorem url_error_skipped (ps1 ps2 : List MdnsPacket) (p : MdnsPacket) (e : UrlParseError)
    (h : Device.fromPacket p = .error e) :
    resolveDevices (ps1 ++ p :: ps2) = resolveDevices (ps1 ++ ps2) :=
  resolveDevices_skip_error h ps1 ps2

/-- Witness for the amended claim C6 at a concrete IPv6-resolved
announcement. -/
theorem url_error_skipped_witness :
    resolveDevices ([] ++ (MdnsPacket.resolved (exBase "lightV6") svcV6Loopback) :: []) =
      resolveDevices ([] ++ []) :=
  url_error_skipped [] [] (MdnsPacket.resolved (exBase "lightV6") svcV6Loopback)
    UrlParseError.emptyHost rfl

/-- Claim C7: the claim states that a line whose leading field does not
start with `+`, `=` or `-`, or with fewer than six semicolon-separated
fields (fewer than nine for `Resolved`), always yields a decode error
and never panics.  The error cases do hold, but a short line whose
hostname field holds an out-of-range escape reaches the
`parse_escaped_ascii` panic before the missing fields are discovered:
the four-field line below panics instead of returning "not enough
arguments".  This theorem evaluates the model at that line and at
representative error lines. -/
theorem decoder_short_line_panic_eval :
    (splitOnChar ';' (("+;a;IPv4;\\256").data)).length = 4 ∧
    MdnsPacket.tryFrom ("+;a;IPv4;\\256") = .panicked ∧
    MdnsPacket.tryFrom ("x;enp6s0;IPv4;h;s;d") = .err (.modeParse 'x') ∧
    MdnsPacket.tryFrom ("+;enp6s0;IPv4") = .err .notEnoughArgs ∧
    MdnsPacket.tryFrom ("=;enp6s0;IPv4;h;s;d;rh;1.2.3.4") = .err .notEnoughArgs ∧
    MdnsPacket.tryFrom ("") = .err .notEnoughArgs := by
  refine ⟨rfl, rfl, rfl, rfl, rfl, rfl⟩

/-- Claim C8: `Device::from_packet` returns `Some(Device)` only for the
`Resolved` variant, with the device name equal to the base hostname and
the URL the parse of the formatted address and port (whose path
normalizes to a single slash); it returns `None` for `New` and `Exited`,
and a malformed URL is a checked error value, never a panic (the model's
return type is a plain error sum). -/
theorem fromPacket_contract (p : MdnsPacket) :
    (∀ b, p = .new b → Device.fromPacket p = .ok none) ∧
    (∀ b, p = .exited b → Device.fromPacket p = .ok none) ∧
    (∀ b s u, p = .resolved b s →
      urlParseChars (deviceUrlChars s.ip s.port.val) = .ok u →
      Device.fromPacket p = .ok (some ⟨b.hostname, u⟩) ∧ u.path = "/") ∧
    (∀ b s e, p = .resolved b s →
      urlParseChars (deviceUrlChars s.ip s.port.val) = .error e →
      Device.fromPacket p = .error e) := by
  refine ⟨?_, ?_, ?_, ?_⟩
  · rintro b rfl
    rfl
  · rintro b rfl
    rfl
  · rintro b s u rfl hok
    constructor
    · simp only [Device.fromPacket, hok]
    · have hslash : '/' ∉ s.ip.displayChars ++ ':' :: toDecChars s.port.val := by
        intro hmem
        rcases List.mem_append.mp hmem with hmem | hmem
        · exact slash_not_mem_displayChars s.ip hmem
        · rcases List.mem_cons.mp hmem with heq | hmem
          · cases heq
          · exact slash_not_mem_toDecChars _ hmem
      exact parseAuthority_ok_path hslash ((urlParseChars_deviceUrl s.ip s.port.val) ▸ hok)
  · rintro b s e rfl herr
    simp only [Device.fromPacket, herr]

/-- Witness for claim C8 at a concrete `New` announcement and a concrete
IPv4 `Resolved` announcement. -/
theorem fromPacket_contract_witness :
    Device.fromPacket (.new (exBase "x")) = .ok none ∧
    Device.fromPacket (.resolved (exBase "Elgato Key Light 8D7C") svcV4) =
      .ok (some ⟨"Elgato Key Light 8D7C", ⟨"192.168.0.92", some 9123, "/"⟩⟩) ∧
    (⟨"192.168.0.92", some 9123, "/"⟩ : Url).path = "/" := by
  refine ⟨(fromPacket_contract (.new (exBase "x"))).1 _ rfl, ?_⟩
  have h := (fromPacket_contract (.resolved (exBase "Elgato Key Light 8D7C") svcV4)).2.2.1
    (exBase "Elgato Key Light 8D7C") svcV4 ⟨"192.168.0.92", some 9123, "/"⟩ rfl rfl
  exact ⟨h.1, h.2⟩

/-- Claim C9: the concrete avahi-browse line below decodes to a `New`
announcement with address family IPv6 and the space-unescaped hostname,
and the escape decoder turns the escaped hostname into
`Elgato Key Light 8D7C`. -/
theorem parse_new_line_eval :
    MdnsPacket.tryFrom ("+;enp6s0;IPv6;Elgato\\032Key\\032Light\\0328D7C;_elg._tcp;local") =
      .ok (.new ⟨"enp6s0", IpType.v6, "Elgato Key Light 8D7C", "_elg._tcp", "local"⟩) ∧
    parseEscapedChars (("Elgato\\032Key\\032Light\\0328D7C").data) =
      some (("Elgato Key Light 8D7C").data) := by
  refine ⟨rfl, rfl⟩

/-- Claim C10: every `Resolved` announcement whose service IP is an IPv6
address makes `Device::from_packet` fail with a URL parse error (the
formatted URL lacks the square brackets an IPv6 host literal needs, so
the textual IPv6 address's colons corrupt the host or port), and
consequently such an announcement never contributes a device to the
one-shot device list. -/
theorem ipv6_resolved_always_url_error (b : MdnsPacketBase) (s : Service)
    (s0 s1 s2 s3 s4 s5 s6 s7 : Fin 65536)
    (hip : s.ip = .v6 s0 s1 s2 s3 s4 s5 s6 s7) :
    (∃ e, Device.fromPacket (.resolved b s) = .error e) ∧
    ∀ ps1 ps2 : List MdnsPacket,
      resolveDevices (ps1 ++ (.resolved b s) :: ps2) = resolveDevices (ps1 ++ ps2) := by
  have hcolon : ':' ∈ s.ip.displayChars := by
    rw [hip]
    exact colon_mem_ipv6DisplayChars _ _ _ _ _ _ _ _
  obtain ⟨e, he⟩ := parseAuthority_error_of_colon hcolon
    (slash_not_mem_displayChars s.ip) (slash_not_mem_toDecChars s.port.val)
  have herr : Device.fromPacket (.resolved b s) = .error e := by
    rw [fromPacket_resolved_eq, he]
  exact ⟨⟨e, herr⟩, fun ps1 ps2 => resolveDevices_skip_error herr ps1 ps2⟩

/-- Witness for claim C10 at a concrete loopback IPv6 resolved
announcement. -/
theorem ipv6_resolved_always_url_error_witness :
    (∃ e, Device.fromPacket (.resolved (exBase "lightV6") svcV6Loopback) = .error e) ∧
    resolveDevices ([] ++ (MdnsPacket.resolved (exBase "lightV6") svcV6Loopback) :: []) =
      resolveDevices ([] ++ []) := by
  have h := ipv6_resolved_always_url_error (exBase "lightV6") svcV6Loopback
    0 0 0 0 0 0 0 1 rfl
  exact ⟨h.1, h.2 [] []⟩
